import Mathlib

/-!
Verification of the TLS socket transport (`TSSLSocket.cpp`).

This file shallowly embeds the pure logic of the C++ source:
hostname wildcard matching (`matchName`, `uppercase`), the default
access manager's three `verify` overloads, the `authorize` walk over
peer-certificate identity sources, the `read` retry loop, the `write`
accumulation loop, the reference-counted OpenSSL init/cleanup protocol
of `TSSLSocketFactory`, and the certificate/key loading entry points.
C strings become `List Char`, raw byte buffers become `List Nat`,
engine calls (`SSL_read`, `SSL_write`, ...) become explicit oracles
(lists of results), and thrown exceptions become `Except` errors.
-/

namespace ThriftSSL

/-! ## Hostname wildcard matching (TSSLSocket.cpp lines 626-658) -/

/-- Embedding of `uppercase` (line 653): locale-independent ASCII
uppercase, `if ('a' <= c && c <= 'z') return c + ('A' - 'a')`. -/
def uppercase (c : Char) : Char :=
  if 'a' ≤ c ∧ c ≤ 'z' then Char.ofNat (c.toNat - 32) else c

/-- Embedding of the wildcard advance inside `matchName` (lines 636-638):
`while (host[j] != '.' && host[j] != '\0') j++;` — the remaining host
after advancing to the next dot or end of string. -/
def dropLabel : List Char → List Char
  | [] => []
  | c :: cs => if c = '.' then c :: cs else dropLabel cs

/-- Embedding of `matchName(host, pattern, size)` (lines 626-649).
The pattern is the `size`-byte certificate name; its list length plays
the role of `size`.  Walking both strings left to right: equal
characters (case-insensitively) advance both; a `*` pattern character
advances the pattern by one and the host to the next `.` or end; any
other mismatch breaks the loop; the final check is
`i == size && host[j] == '\0'`. -/
def matchName (host pattern : List Char) : Bool :=
  match pattern, host with
  | [], h => h.isEmpty
  | _ :: _, [] => false
  | c :: ps, d :: hs =>
    if uppercase c = uppercase d then matchName hs ps
    else if c = '*' then matchName (dropLabel (d :: hs)) ps
    else false

/-- Residue form of the `matchName` loop: the pair of (remaining host,
remaining pattern) at loop exit; `matchName` succeeds exactly when both
residues are empty. -/
def matchLoop (host pattern : List Char) : List Char × List Char :=
  match pattern, host with
  | [], h => (h, [])
  | c :: ps, [] => ([], c :: ps)
  | c :: ps, d :: hs =>
    if uppercase c = uppercase d then matchLoop hs ps
    else if c = '*' then matchLoop (dropLabel (d :: hs)) ps
    else (d :: hs, c :: ps)

/-! ## Access manager decisions and the default manager (lines 590-615) -/

/-- Embedding of `AccessManager::Decision` (tri-state verdict). -/
inductive Decision
  | DENY
  | ALLOW
  | SKIP
deriving DecidableEq, Repr

/-- Peer network address as obtained from `getpeername`: an IPv4
address (4 bytes of `sin_addr`), an IPv6 address (16 bytes of
`sin6_addr`), or an unspecified/other family. -/
inductive SockAddr
  | v4 (addr : Fin 4 → Nat)
  | v6 (addr : Fin 16 → Nat)
  | unspec

/-- Polymorphic access manager: the three `verify` overloads of the
`AccessManager` interface.  `verifyHost` takes the host string and the
pattern bytes; `verifyPattern` takes the peer address and raw pattern
bytes. -/
structure AccessManager where
  verifyAddr : SockAddr → Decision
  verifyHost : List Char → List Char → Decision
  verifyPattern : SockAddr → List Nat → Decision

namespace DefaultClientAccessManager

/-- Embedding of `DefaultClientAccessManager::verify(sa)` (line 593):
always `SKIP`. -/
def verifySa (_ : SockAddr) : Decision := .SKIP

/-- Embedding of `DefaultClientAccessManager::verify(host, name, size)`
(lines 596-603): `SKIP` when the host is empty or the pattern has
non-positive size, else `ALLOW` iff `matchName` succeeds, else `SKIP`.
(The C `name == NULL` case has no counterpart for a `List Char`.) -/
def verifyHost (host : List Char) (name : List Char) : Decision :=
  if host.isEmpty ∨ name.length ≤ 0 then .SKIP
  else if matchName host name then .ALLOW else .SKIP

/-- Embedding of `DefaultClientAccessManager::verify(sa, data, size)`
(lines 605-615): compare the pattern bytes with the peer address bytes
when the address family matches the pattern size (4 for `AF_INET`,
16 for `AF_INET6`); `ALLOW` on an exact `memcmp` match, else `SKIP`. -/
def verifyPattern (sa : SockAddr) (data : List Nat) : Decision :=
  match sa with
  | .v4 addr => if data.length = 4 ∧ List.ofFn addr = data then .ALLOW else .SKIP
  | .v6 addr => if data.length = 16 ∧ List.ofFn addr = data then .ALLOW else .SKIP
  | .unspec => .SKIP

end DefaultClientAccessManager

/-! ## Peer authorization (TSSLSocket::authorize, lines 234-339)

The walk over identity sources once the engine's chain verification
succeeded, a peer certificate is present and an access manager is
configured (lines 260-338).  `peerHost` models `getPeerHost()`,
`localHost` models `getHost()` (the host configured on the socket). -/

/-- Certificate alternate-name entry (`GENERAL_NAME`): DNS-typed
(`GEN_DNS`, bytes of the name), address-typed (`GEN_IPADD`, raw
bytes), or any other type (ignored by the `switch`). -/
inductive GeneralName
  | dns (data : List Char)
  | ipadd (data : List Nat)
  | other

namespace TSSLSocket

/-- Lazy host resolution of the alternate-name loop (lines 292-294):
`if (host.empty()) host = (server() ? getPeerHost() : getHost());` —
an empty string means not yet resolved. -/
def resolveAltHost (server : Bool) (peerHost localHost host : List Char) : List Char :=
  if host = [] then (if server then peerHost else localHost) else host

/-- Lazy host resolution of the common-name loop (lines 328-330):
`if (host.empty()) host = (server() ? getHost() : getHost());` — the
source consults `getHost()` in both roles. -/
def resolveCommonHost (server : Bool) (peerHost localHost host : List Char) : List Char :=
  if host = [] then (if server then localHost else localHost) else host

/-- Embedding of the alternate-name loop (lines 281-303).  The second
list argument is the mutable `host` string (empty = not yet resolved);
for each DNS entry the host is resolved once
(`server() ? getPeerHost() : getHost()`) and the manager consulted
with (host, name bytes); for each address entry the manager is
consulted with (peer address, pattern bytes); the loop stops at the
first non-`SKIP` decision.  Returns the final decision and host. -/
def altNameLoop (access : AccessManager) (sa : SockAddr) (server : Bool)
    (peerHost localHost : List Char) :
    List GeneralName → List Char → Decision × List Char
  | [], host => (.SKIP, host)
  | .dns data :: rest, host =>
    let h := resolveAltHost server peerHost localHost host
    let d := access.verifyHost h data
    if d = .SKIP then altNameLoop access sa server peerHost localHost rest h
    else (d, h)
  | .ipadd data :: rest, host =>
    let d := access.verifyPattern sa data
    if d = .SKIP then altNameLoop access sa server peerHost localHost rest host
    else (d, host)
  | .other :: rest, host => altNameLoop access sa server peerHost localHost rest host

/-- Embedding of the common-name loop (lines 313-334).  Note the
source resolves the host as `server() ? getHost() : getHost()`
(line 329) — `getHost()` in both roles. -/
def commonNameLoop (access : AccessManager) (server : Bool)
    (peerHost localHost : List Char) :
    List (List Char) → List Char → Decision
  | [], _ => .SKIP
  | cn :: rest, host =>
    let h := resolveCommonHost server peerHost localHost host
    let d := access.verifyHost h cn
    if d = .SKIP then commonNameLoop access server peerHost localHost rest h
    else d

/-- Embedding of `TSSLSocket::authorize` from line 260 on (certificate
and access manager both present, chain verification already `X509_V_OK`):
consult the manager with the bare peer address, then the alternate
names, then the subject common names, short-circuiting at the first
non-`SKIP` decision; accept iff the final decision is `ALLOW`. -/
def authorize (access : AccessManager) (sa : SockAddr) (server : Bool)
    (peerHost localHost : List Char)
    (alternatives : List GeneralName) (commonNames : List (List Char)) :
    Except String Unit :=
  let decision := access.verifyAddr sa
  if decision ≠ .SKIP then
    if decision ≠ .ALLOW then .error "authorize: access denied based on remote IP"
    else .ok ()
  else
    let p := altNameLoop access sa server peerHost localHost alternatives []
    if p.1 ≠ .SKIP then
      if p.1 ≠ .ALLOW then .error "authorize: access denied" else .ok ()
    else
      let decision := commonNameLoop access server peerHost localHost commonNames p.2
      if decision ≠ .ALLOW then .error "authorize: cannot authorize peer" else .ok ()

/-! ### Ghost instrumentation for the authorization walk

The `...T` variants additionally return the list of decisions the
manager actually produced, in consultation order; the `...Decisions`
functions list the decision of every identity source in order with no
short-circuiting, replaying the same host-memoization. -/

/-- Trace variant of `altNameLoop`: also returns the consulted
decisions in order. -/
def altNameLoopT (access : AccessManager) (sa : SockAddr) (server : Bool)
    (peerHost localHost : List Char) :
    List GeneralName → List Char → Decision × List Char × List Decision
  | [], host => (.SKIP, host, [])
  | .dns data :: rest, host =>
    let h := resolveAltHost server peerHost localHost host
    let d := access.verifyHost h data
    if d = .SKIP then
      let q := altNameLoopT access sa server peerHost localHost rest h
      (q.1, q.2.1, d :: q.2.2)
    else (d, h, [d])
  | .ipadd data :: rest, host =>
    let d := access.verifyPattern sa data
    if d = .SKIP then
      let q := altNameLoopT access sa server peerHost localHost rest host
      (q.1, q.2.1, d :: q.2.2)
    else (d, host, [d])
  | .other :: rest, host => altNameLoopT access sa server peerHost localHost rest host

/-- Trace variant of `commonNameLoop`. -/
def commonNameLoopT (access : AccessManager) (server : Bool)
    (peerHost localHost : List Char) :
    List (List Char) → List Char → Decision × List Decision
  | [], _ => (.SKIP, [])
  | cn :: rest, host =>
    let h := resolveCommonHost server peerHost localHost host
    let d := access.verifyHost h cn
    if d = .SKIP then
      let q := commonNameLoopT access server peerHost localHost rest h
      (q.1, d :: q.2)
    else (d, [d])

/-- Trace variant of `authorize`: also returns the consulted decisions
in order. -/
def authorizeT (access : AccessManager) (sa : SockAddr) (server : Bool)
    (peerHost localHost : List Char)
    (alternatives : List GeneralName) (commonNames : List (List Char)) :
    Except String Unit × List Decision :=
  let decision := access.verifyAddr sa
  if decision ≠ .SKIP then
    if decision ≠ .ALLOW then
      (.error "authorize: access denied based on remote IP", [decision])
    else (.ok (), [decision])
  else
    let p := altNameLoopT access sa server peerHost localHost alternatives []
    if p.1 ≠ .SKIP then
      if p.1 ≠ .ALLOW then (.error "authorize: access denied", decision :: p.2.2)
      else (.ok (), decision :: p.2.2)
    else
      let q := commonNameLoopT access server peerHost localHost commonNames p.2.1
      if q.1 ≠ .ALLOW then
        (.error "authorize: cannot authorize peer", decision :: (p.2.2 ++ q.2))
      else (.ok (), decision :: (p.2.2 ++ q.2))

/-- In-order decision of every alternate-name source, with the same
host memoization, no short-circuiting. -/
def altNameDecisions (access : AccessManager) (sa : SockAddr) (server : Bool)
    (peerHost localHost : List Char) :
    List GeneralName → List Char → List Decision
  | [], _ => []
  | .dns data :: rest, host =>
    let h := resolveAltHost server peerHost localHost host
    access.verifyHost h data :: altNameDecisions access sa server peerHost localHost rest h
  | .ipadd data :: rest, host =>
    access.verifyPattern sa data :: altNameDecisions access sa server peerHost localHost rest host
  | .other :: rest, host => altNameDecisions access sa server peerHost localHost rest host

/-- Host-string state after scanning the whole alternate-name list. -/
def altNameFinalHost (server : Bool) (peerHost localHost : List Char) :
    List GeneralName → List Char → List Char
  | [], host => host
  | .dns _ :: rest, host =>
    altNameFinalHost server peerHost localHost rest
      (resolveAltHost server peerHost localHost host)
  | .ipadd _ :: rest, host => altNameFinalHost server peerHost localHost rest host
  | .other :: rest, host => altNameFinalHost server peerHost localHost rest host

/-- In-order decision of every common-name source, no
short-circuiting. -/
def commonNameDecisions (access : AccessManager) (server : Bool)
    (peerHost localHost : List Char) :
    List (List Char) → List Char → List Decision
  | [], _ => []
  | cn :: rest, host =>
    let h := resolveCommonHost server peerHost localHost host
    access.verifyHost h cn :: commonNameDecisions access server peerHost localHost rest h

/-- Decision of every identity source of an authorization pass, in the
fixed order: bare peer address, alternate names in list order, then
subject common names in certificate order. -/
def sourceDecisions (access : AccessManager) (sa : SockAddr) (server : Bool)
    (peerHost localHost : List Char)
    (alternatives : List GeneralName) (commonNames : List (List Char)) :
    List Decision :=
  access.verifyAddr sa ::
    (altNameDecisions access sa server peerHost localHost alternatives [] ++
     commonNameDecisions access server peerHost localHost commonNames
       (altNameFinalHost server peerHost localHost alternatives []))

end TSSLSocket

/-- First non-`SKIP` decision of a list, if any. -/
def firstNonSkip : List Decision → Option Decision
  | [] => none
  | d :: rest => if d = .SKIP then firstNonSkip rest else some d

/-- Prefix of a decision list up to and including its first non-`SKIP`
element (the whole list when every decision is `SKIP`). -/
def takeToFirstNonSkip : List Decision → List Decision
  | [] => []
  | d :: rest => if d = .SKIP then d :: takeToFirstNonSkip rest else [d]

/-- Modelled from the spec: the common-name step with role-appropriate
hostname resolution — "resolve the locally-known hostname for this
connection (peer hostname for server role, configured target hostname
for client role)".  This is the spec's intended contract for line 329,
to be compared with `commonNameLoop` as the source wrote it. -/
def commonNameLoopRoleCorrect (access : AccessManager) (server : Bool)
    (peerHost localHost : List Char) :
    List (List Char) → List Char → Decision
  | [], _ => .SKIP
  | cn :: rest, host =>
    let h := TSSLSocket.resolveAltHost server peerHost localHost host
    let d := access.verifyHost h cn
    if d = .SKIP then commonNameLoopRoleCorrect access server peerHost localHost rest h
    else d

/-- Access-manager stub for exercising the common-name step: allows
exactly when the consulted hostname is the peer hostname
`"peer.example.com"`, skips otherwise, and skips both address
checks. -/
def peerHostOnlyManager : AccessManager where
  verifyAddr := fun _ => .SKIP
  verifyHost := fun h _ => if h = "peer.example.com".toList then .ALLOW else .SKIP
  verifyPattern := fun _ _ => .SKIP

/-! ## Read retry loop (TSSLSocket::read, lines 155-173) -/

/-- Outcome of one `SSL_read` call as the retry loop inspects it:
the returned byte count, whether `SSL_get_error` reported
`SSL_ERROR_SYSCALL`, whether the diagnostic queue was empty
(`ERR_get_error() == 0`) and whether `errno` was `EINTR`. -/
structure SSLReadResult where
  bytes : Int
  errSyscall : Bool
  queueEmpty : Bool
  eintr : Bool

/-- Conversion of the `int32_t` loop variable `bytes` to the
`uint32_t` return type of `read` (two's-complement reinterpretation). -/
def asUInt32 (i : Int) : Nat := (i % (2 ^ 32 : Int)).toNat

namespace TSSLSocket

/-- Embedding of `TSSLSocket::read`'s retry loop: first argument is
the number of retries still allowed (`maxRecvRetries_ - retries`), the
list is the oracle of successive `SSL_read` outcomes and the `Int` is
the current value of `bytes` (initially 0).  A non-negative result
breaks out and is returned; a negative result retries only on
syscall-category error with empty queue and `EINTR`, else throws;
exhausting the retries returns the last `bytes` value, cast to
`uint32_t`.  `none` models the unreachable case of the oracle running
dry while retries remain. -/
def read : Nat → List SSLReadResult → Int → Option (Except String Nat)
  | 0, _, bytes => some (.ok (asUInt32 bytes))
  | _ + 1, [], _ => none
  | retriesLeft + 1, r :: rest, _ =>
    if 0 ≤ r.bytes then some (.ok (asUInt32 r.bytes))
    else if r.errSyscall && r.queueEmpty && r.eintr then read retriesLeft rest r.bytes
    else some (.error "SSL_read")

/-! ## Write loop (TSSLSocket::write, lines 175-189) -/

/-- Embedding of `TSSLSocket::write`'s accumulation loop: `len` is the
requested length, the list is the oracle of successive `SSL_write`
results and `written` the accumulator (initially 0).  The loop exits
normally once `written >= len`; a non-positive chunk result throws
immediately; a positive chunk is added to `written`.  `none` models
the unreachable case of the oracle running dry mid-loop. -/
def write (len : Nat) : List Int → Nat → Option (Except String Nat)
  | rs, written =>
    if len ≤ written then some (.ok written)
    else
      match rs with
      | [] => none
      | r :: rest =>
        if r ≤ 0 then some (.error "SSL_write")
        else write len rest (written + r.toNat)

end TSSLSocket

/-- Constraint tying a `write` oracle to the actual `SSL_write`
contract: each successful result reports at most the number of bytes
that were requested in that call (`len - written` at that point). -/
inductive WriteChunks (len : Nat) : Nat → List Int → Prop
  | nil (written : Nat) : WriteChunks len written []
  | cons (written : Nat) (r : Int) (rest : List Int) :
      (0 < r → r.toNat ≤ len - written) →
      WriteChunks len (written + r.toNat) rest →
      WriteChunks len written (r :: rest)

/-! ## Factory lifecycle (lines 342-362 and 520-561) -/

/-- Process-wide state of `TSSLSocketFactory`: the static fields
`count_` (number of live factories) and `initialized` (whether the
OpenSSL library has been set up). -/
structure FactoryGlobals where
  count : Nat
  initialized : Bool

namespace TSSLSocketFactory

/-- Embedding of `TSSLSocketFactory::initializeOpenSSL` (lines
520-542): a no-op when already initialized, otherwise flips the flag
and performs the one-time library setup (returned boolean: whether the
library setup ran). -/
def initializeOpenSSL (s : FactoryGlobals) : FactoryGlobals × Bool :=
  if s.initialized then (s, false)
  else ({ s with initialized := true }, true)

/-- Embedding of `TSSLSocketFactory::cleanupOpenSSL` (lines 544-561):
a no-op when not initialized, otherwise clears the flag and tears the
library down (returned boolean: whether teardown ran). -/
def cleanupOpenSSL (s : FactoryGlobals) : FactoryGlobals × Bool :=
  if s.initialized then ({ s with initialized := false }, true)
  else (s, false)

/-- Embedding of the constructor (lines 346-354), under the global
mutex: initialize the library when `count_ == 0`, then increment
`count_`. -/
def construct (s : FactoryGlobals) : FactoryGlobals × Bool :=
  let p := if s.count = 0 then initializeOpenSSL s else (s, false)
  ({ p.1 with count := p.1.count + 1 }, p.2)

/-- Embedding of the destructor (lines 356-362), under the global
mutex: decrement `count_`, then clean the library up when it reached
zero. -/
def destruct (s : FactoryGlobals) : FactoryGlobals × Bool :=
  let s1 : FactoryGlobals := { s with count := s.count - 1 }
  if s1.count = 0 then cleanupOpenSSL s1 else (s1, false)

/-- One factory lifetime event. -/
inductive FactoryOp
  | ctor
  | dtor
deriving DecidableEq, Repr

/-- Run a sequence of constructor/destructor events against the
global state. -/
def runOps : List FactoryOp → FactoryGlobals → FactoryGlobals
  | [], s => s
  | .ctor :: rest, s => runOps rest (construct s).1
  | .dtor :: rest, s => runOps rest (destruct s).1

/-- Validity of an event sequence given the number of live factories:
a destructor event can only come from a factory that exists. -/
def validOps : Nat → List FactoryOp → Bool
  | _, [] => true
  | live, .ctor :: rest => validOps (live + 1) rest
  | live, .dtor :: rest => decide (0 < live) && validOps (live - 1) rest

/-! ## Certificate and key loading (lines 415-445) -/

/-- Errors raised by the loading entry points: `BAD_ARGS` transport
exceptions, engine failures with drained diagnostics, and the
unsupported-format exception. -/
inductive LoadError
  | badArgs (msg : String)
  | ssl (msg : String)
  | unsupported (msg : String)
deriving DecidableEq, Repr

/-- Embedding of `TSSLSocketFactory::loadCertificate` (lines 415-430):
`none` models a `NULL` pointer; `engineOk` models the success of
`SSL_CTX_use_certificate_chain_file`. -/
def loadCertificate (path format : Option String) (engineOk : Bool) :
    Except LoadError Unit :=
  match path, format with
  | none, _ => .error (.badArgs "loadCertificateChain: either <path> or <format> is NULL")
  | some _, none => .error (.badArgs "loadCertificateChain: either <path> or <format> is NULL")
  | some _, some f =>
    if f = "PEM" then
      if engineOk then .ok ()
      else .error (.ssl "SSL_CTX_use_certificate_chain_file")
    else .error (.unsupported ("Unsupported certificate format: " ++ f))

/-- Embedding of `TSSLSocketFactory::loadPrivateKey` (lines 432-445):
`none` models a `NULL` pointer; `engineOk` models the success of
`SSL_CTX_use_PrivateKey_file`.  The source has no `else` branch on the
format comparison: a non-`"PEM"` format falls through and the function
returns normally. -/
def loadPrivateKey (path format : Option String) (engineOk : Bool) :
    Except LoadError Unit :=
  match path, format with
  | none, _ => .error (.badArgs "loadPrivateKey: either <path> or <format> is NULL")
  | some _, none => .error (.badArgs "loadPrivateKey: either <path> or <format> is NULL")
  | some _, some f =>
    if f = "PEM" then
      if engineOk then .ok ()
      else .error (.ssl "SSL_CTX_use_PrivateKey_file")
    else .ok ()

end TSSLSocketFactory

/-! ## Theorems -/

/-- Success of `matchName` coincides with both residues of the
matching loop being empty: the final check of the source is
`i == size && host[j] == '\0'`. -/
theorem matchName_iff_matchLoop (host pattern : List Char) :
    matchName host pattern = true ↔ matchLoop host pattern = ([], []) := by
  induction pattern generalizing host with
  | nil => cases host <;> simp [matchName, matchLoop]
  | cons c ps ih =>
    cases host with
    | nil => simp [matchName, matchLoop]
    | cons d hs =>
      simp only [matchName, matchLoop]
      by_cases h1 : uppercase c = uppercase d
      · rw [if_pos h1, if_pos h1]
        exact ih hs
      · rw [if_neg h1, if_neg h1]
        by_cases h2 : c = '*'
        · rw [if_pos h2, if_pos h2]
          exact ih _
        · rw [if_neg h2, if_neg h2]
          simp

/-- The wildcard advance drops exactly the maximal dot-free prefix of
the remaining host. -/
theorem dropLabel_eq_dropWhile (host : List Char) :
    dropLabel host = host.dropWhile (fun c => c != '.') := by
  induction host with
  | nil => rfl
  | cons c cs ih =>
    by_cases h : c = '.' <;> simp [dropLabel, List.dropWhile_cons, h, ih]

/-- Elements of a `takeWhile` prefix satisfy the predicate. -/
theorem all_takeWhile_self (p : Char → Bool) (l : List Char) :
    (l.takeWhile p).all p = true := by
  induction l with
  | nil => rfl
  | cons c cs ih =>
    by_cases h : p c = true <;> simp [List.takeWhile_cons, h, ih]

/-- C2 counterexample: the wildcard need not absorb a non-empty label.
Matching pattern `*.com` against host `.com` — a host with no leading
label before `.com` — succeeds: the `*` absorbs the empty label and
the rest of the pattern is consumed together with the host. -/
theorem matchName_star_absorbs_empty_label :
    matchName ".com".toList "*.com".toList = true := by decide

/-- C2 (amended): `matchName(H, P, |P|)` succeeds only when the
pattern is fully consumed exactly when the hostname is fully consumed
(both residues of the loop are empty); `match("example.com",
"example.co")` is false; the wildcard, however, may absorb an empty
label: `*.com` does match host `.com`, while host `com` fails because
the wildcard absorbs the entire host and `.com` is left of the
pattern. -/
theorem matchName_exact_consumption :
    (∀ host pattern : List Char,
        matchName host pattern = true ↔ matchLoop host pattern = ([], [])) ∧
    matchName "example.com".toList "example.co".toList = false ∧
    matchName ".com".toList "*.com".toList = true ∧
    matchName "com".toList "*.com".toList = false :=
  ⟨matchName_iff_matchLoop, by decide, by decide, by decide⟩

/-- C3: a single `*` absorbs exactly one dot-delimited label and never
crosses a `.`: the absorbed prefix is the maximal dot-free prefix of
the remaining host; hence `match("a.b.example.com", "*.example.com")`
is false and `match("b.example.com", "*.example.com")` is true. -/
theorem matchName_wildcard_one_label :
    (∀ host : List Char, ∃ pre,
        host = pre ++ dropLabel host ∧ pre.all (fun c => c != '.') = true) ∧
    matchName "a.b.example.com".toList "*.example.com".toList = false ∧
    matchName "b.example.com".toList "*.example.com".toList = true := by
  refine ⟨fun host => ⟨host.takeWhile (fun c => c != '.'), ?_, ?_⟩, by decide, by decide⟩
  · rw [dropLabel_eq_dropWhile]
    exact (List.takeWhile_append_dropWhile _ host).symm
  · exact all_takeWhile_self _ host

/-- C7: the default access manager's bare network-address check
returns `SKIP` for every address; its raw-address-pattern check
returns `ALLOW` exactly when the pattern bytes equal the peer address
bytes for the matching address family (4 bytes for IPv4, 16 for IPv6)
and otherwise `SKIP`; neither check ever returns `DENY`. -/
theorem defaultManager_address_policy :
    (∀ sa, DefaultClientAccessManager.verifySa sa = .SKIP) ∧
    (∀ (sa : SockAddr) (data : List Nat),
        DefaultClientAccessManager.verifyPattern sa data = .ALLOW ↔
          (match sa with
           | .v4 a => data = List.ofFn a
           | .v6 a => data = List.ofFn a
           | .unspec => False)) ∧
    (∀ (sa : SockAddr) (data : List Nat),
        DefaultClientAccessManager.verifyPattern sa data = .SKIP ∨
        DefaultClientAccessManager.verifyPattern sa data = .ALLOW) := by
  refine ⟨fun _ => rfl, fun sa data => ?_, fun sa data => ?_⟩
  · cases sa with
    | v4 a =>
      simp only [DefaultClientAccessManager.verifyPattern]
      by_cases h : data.length = 4 ∧ List.ofFn a = data
      · rw [if_pos h]
        simp [h.2.symm]
      · rw [if_neg h]
        constructor
        · intro hd
          exact absurd hd (by decide)
        · intro hdata
          exact absurd ⟨by simp [hdata], hdata.symm⟩ h
    | v6 a =>
      simp only [DefaultClientAccessManager.verifyPattern]
      by_cases h : data.length = 16 ∧ List.ofFn a = data
      · rw [if_pos h]
        simp [h.2.symm]
      · rw [if_neg h]
        constructor
        · intro hd
          exact absurd hd (by decide)
        · intro hdata
          exact absurd ⟨by simp [hdata], hdata.symm⟩ h
    | unspec =>
      simp only [DefaultClientAccessManager.verifyPattern]
      constructor
      · intro hd
        exact absurd hd (by decide)
      · intro hf
        exact hf.elim
  · cases sa with
    | v4 a =>
      simp only [DefaultClientAccessManager.verifyPattern]
      split
      · exact Or.inr rfl
      · exact Or.inl rfl
    | v6 a =>
      simp only [DefaultClientAccessManager.verifyPattern]
      split
      · exact Or.inr rfl
      · exact Or.inl rfl
    | unspec => exact Or.inl rfl

/-- C9 (code divergence at `loadPrivateKey`): a `NULL` path or format
raises `BAD_ARGS` in both loaders, and `loadCertificate` raises
unsupported-format on a non-`"PEM"` tag; but `loadPrivateKey` with a
non-`NULL`, non-`"PEM"` format returns silently instead of raising —
the source has no `else` branch on the format comparison. -/
theorem loadPrivateKey_silent_on_non_pem :
    TSSLSocketFactory.loadPrivateKey (some "key.pem") (some "DER") true = .ok () ∧
    TSSLSocketFactory.loadCertificate (some "cert.pem") (some "DER") true =
      .error (.unsupported "Unsupported certificate format: DER") ∧
    TSSLSocketFactory.loadPrivateKey none (some "PEM") true =
      .error (.badArgs "loadPrivateKey: either <path> or <format> is NULL") ∧
    TSSLSocketFactory.loadCertificate (some "cert.pem") none true =
      .error (.badArgs "loadCertificateChain: either <path> or <format> is NULL") :=
  ⟨rfl, rfl, rfl, rfl⟩

/-- C5: one step of the read retry loop — a non-negative `SSL_read`
result returns immediately as the byte count; a negative result with
syscall-category error, empty diagnostic queue and `EINTR` is retried
(the loop continues on the remaining retry budget); any other negative
result raises on its first occurrence. -/
theorem read_retry_policy :
    ∀ (n : Nat) (r : SSLReadResult) (rest : List SSLReadResult) (b : Int),
      (0 ≤ r.bytes →
        TSSLSocket.read (n + 1) (r :: rest) b = some (.ok (asUInt32 r.bytes))) ∧
      (0 ≤ r.bytes → r.bytes < 2 ^ 31 →
        TSSLSocket.read (n + 1) (r :: rest) b = some (.ok r.bytes.toNat)) ∧
      (r.bytes < 0 → (r.errSyscall && r.queueEmpty && r.eintr) = true →
        TSSLSocket.read (n + 1) (r :: rest) b = TSSLSocket.read n rest r.bytes) ∧
      (r.bytes < 0 → (r.errSyscall && r.queueEmpty && r.eintr) = false →
        TSSLSocket.read (n + 1) (r :: rest) b = some (.error "SSL_read")) := by
  intro n r rest b
  refine ⟨fun h => ?_, fun h hlt => ?_, fun h hc => ?_, fun h hc => ?_⟩
  · simp only [TSSLSocket.read]
    rw [if_pos h]
  · simp only [TSSLSocket.read]
    rw [if_pos h]
    simp only [asUInt32]
    congr 1
    congr 1
    omega
  · simp only [TSSLSocket.read]
    rw [if_neg (by omega), if_pos hc]
  · simp only [TSSLSocket.read]
    rw [if_neg (by omega), if_neg (by simp [hc])]

/-- Witness for the read retry policy at concrete engine outcomes. -/
theorem read_retry_policy_witness :
    TSSLSocket.read 5 [⟨7, false, false, false⟩] 0 = some (.ok 7) ∧
    TSSLSocket.read 5 [⟨-1, true, false, true⟩] 0 = some (.error "SSL_read") ∧
    TSSLSocket.read 5 [⟨-1, true, true, true⟩, ⟨3, false, false, false⟩] 0 =
      some (.ok 3) := by
  refine ⟨(read_retry_policy 4 ⟨7, false, false, false⟩ [] 0).2.1 (by decide) (by decide),
          (read_retry_policy 4 ⟨-1, true, false, true⟩ [] 0).2.2.2 (by decide) (by decide),
          ?_⟩
  rw [(read_retry_policy 4 ⟨-1, true, true, true⟩ [⟨3, false, false, false⟩] 0).2.2.1
        (by decide) (by decide)]
  exact (read_retry_policy 3 ⟨3, false, false, false⟩ [] (-1)).2.1 (by decide) (by decide)

/-- When every attempt reports an interrupted system call with empty
queue, the loop consumes its whole retry budget and returns the last
result cast to `uint32_t` (for non-negative results it returns at the
first attempt instead, with the same cast value). -/
theorem read_eintr_exhaust (v : Int) :
    ∀ (n : Nat) (b : Int),
      TSSLSocket.read (n + 1) (List.replicate (n + 1) ⟨v, true, true, true⟩) b =
        some (.ok (asUInt32 v)) := by
  intro n
  induction n with
  | zero =>
    intro b
    simp only [List.replicate_succ, List.replicate_zero, TSSLSocket.read]
    by_cases h : 0 ≤ v
    · rw [if_pos h]
    · rw [if_neg h, if_pos (by decide)]
  | succ m ih =>
    intro b
    rw [List.replicate_succ]
    simp only [TSSLSocket.read]
    by_cases h : 0 ≤ v
    · rw [if_pos h]
    · rw [if_neg h, if_pos (by decide)]
      exact ih v

/-- C10: an execution in which `SSL_read` reports an interrupted
system call (syscall-category error, empty queue, `EINTR`) on every
one of the `maxRecvRetries_` attempts makes `read` return without
raising, with the final negative engine result converted to an
unsigned 32-bit byte count. -/
theorem read_retry_exhaustion_overflow :
    ∀ (n : Nat) (v : Int), 0 < n → v < 0 →
      TSSLSocket.read n (List.replicate n ⟨v, true, true, true⟩) 0 =
        some (.ok (asUInt32 v)) := by
  intro n v hn hv
  obtain ⟨m, rfl⟩ : ∃ m, n = m + 1 := ⟨n - 1, by omega⟩
  exact read_eintr_exhaust v m 0

/-- Witness: five consecutive `EINTR` results against a retry budget
of five make `read` return 4294967295 (the `uint32_t` image of -1). -/
theorem read_retry_exhaustion_overflow_witness :
    TSSLSocket.read 5 (List.replicate 5 ⟨-1, true, true, true⟩) 0 =
      some (.ok 4294967295) :=
  (read_retry_exhaustion_overflow 5 (-1) (by decide) (by decide)).trans
    (congrArg (fun x => some (Except.ok x)) (by decide))

/-- Success of the write loop implies the accumulator reached exactly
the requested length, provided each engine chunk reported at most the
bytes requested of it. -/
theorem write_ok_eq_len (len : Nat) :
    ∀ (rs : List Int) (written total : Nat),
      WriteChunks len written rs → written ≤ len →
      TSSLSocket.write len rs written = some (.ok total) → total = len := by
  intro rs
  induction rs with
  | nil =>
    intro written total _ hw hok
    by_cases h : len ≤ written
    · simp only [TSSLSocket.write] at hok
      rw [if_pos h] at hok
      simp only [Option.some.injEq, Except.ok.injEq] at hok
      omega
    · simp only [TSSLSocket.write] at hok
      rw [if_neg h] at hok
      exact absurd hok (by simp)
  | cons r rest ih =>
    intro written total hc hw hok
    by_cases h : len ≤ written
    · simp only [TSSLSocket.write] at hok
      rw [if_pos h] at hok
      simp only [Option.some.injEq, Except.ok.injEq] at hok
      omega
    · simp only [TSSLSocket.write] at hok
      rw [if_neg h] at hok
      by_cases hr : r ≤ 0
      · rw [if_pos hr] at hok
        exact absurd hok (by simp)
      · rw [if_neg hr] at hok
        cases hc with
        | cons _ _ _ hb hc2 =>
          have h1 : r.toNat ≤ len - written := hb (by omega)
          exact ih (written + r.toNat) total hc2 (by omega) hok

/-- C6: the write loop returns normally only once exactly `len` bytes
have been handed to the engine, accumulating partial writes; a zero or
negative chunk result raises immediately, with no retry. -/
theorem write_accumulates_exactly :
    (∀ (len : Nat) (rs : List Int) (total : Nat),
        WriteChunks len 0 rs →
        TSSLSocket.write len rs 0 = some (.ok total) → total = len) ∧
    (∀ (len written : Nat) (r : Int) (rest : List Int),
        written < len → r ≤ 0 →
        TSSLSocket.write len (r :: rest) written = some (.error "SSL_write")) := by
  constructor
  · intro len rs total hc hok
    exact write_ok_eq_len len rs 0 total hc (Nat.zero_le len) hok
  · intro len written r rest hlt hr
    simp only [TSSLSocket.write]
    rw [if_neg (by omega), if_pos hr]

/-- Witness for the write loop: two partial chunks of 2 and 3 bytes
complete a 5-byte write, and a zero chunk raises mid-write. -/
theorem write_accumulates_witness :
    (5 : Nat) = 5 ∧
    TSSLSocket.write 5 [(0 : Int)] 2 = some (.error "SSL_write") :=
  ⟨write_accumulates_exactly.1 5 [2, 3] 5
     (WriteChunks.cons 0 2 [3] (fun _ => by decide)
        (WriteChunks.cons 2 3 [] (fun _ => by decide) (WriteChunks.nil 5)))
     rfl,
   write_accumulates_exactly.2 5 2 0 [] (by decide) (by decide)⟩

namespace TSSLSocketFactory

/-- A constructor event always increments the live count by one. -/
theorem construct_count (s : FactoryGlobals) : (construct s).1.count = s.count + 1 := by
  by_cases h0 : s.count = 0 <;> by_cases h1 : s.initialized <;>
    simp [construct, initializeOpenSSL, h0, h1]

/-- A destructor event always decrements the live count by one. -/
theorem destruct_count (s : FactoryGlobals) : (destruct s).1.count = s.count - 1 := by
  by_cases h0 : s.count - 1 = 0 <;> by_cases h1 : s.initialized <;>
    simp [destruct, cleanupOpenSSL, h0, h1]

/-- A constructor event preserves the invariant that the engine flag
tracks positivity of the reference count. -/
theorem construct_inv (s : FactoryGlobals)
    (h : s.initialized = true ↔ 0 < s.count) :
    ((construct s).1.initialized = true ↔ 0 < (construct s).1.count) := by
  by_cases h0 : s.count = 0
  · by_cases h1 : s.initialized <;>
      simp [construct, initializeOpenSSL, h0, h1]
  · by_cases h1 : s.initialized
    · simp [construct, initializeOpenSSL, h0, h1]
    · exact absurd (h.mpr (by omega)) (by simpa using h1)

/-- A destructor event preserves the invariant that the engine flag
tracks positivity of the reference count. -/
theorem destruct_inv (s : FactoryGlobals)
    (h : s.initialized = true ↔ 0 < s.count) :
    ((destruct s).1.initialized = true ↔ 0 < (destruct s).1.count) := by
  by_cases h0 : s.count - 1 = 0
  · by_cases h1 : s.initialized <;>
      simp [destruct, cleanupOpenSSL, h0, h1]
  · have hc : (destruct s).1.count = s.count - 1 := destruct_count s
    have hi : (destruct s).1.initialized = s.initialized := by
      simp [destruct, h0]
    rw [hc, hi]
    constructor
    · intro _
      omega
    · intro _
      exact h.mpr (by omega)

/-- The flag-tracks-count invariant is preserved by every valid event
sequence. -/
theorem runOps_inv :
    ∀ (ops : List FactoryOp) (s : FactoryGlobals),
      validOps s.count ops = true →
      (s.initialized = true ↔ 0 < s.count) →
      ((runOps ops s).initialized = true ↔ 0 < (runOps ops s).count) := by
  intro ops
  induction ops with
  | nil =>
    intro s _ h
    exact h
  | cons op rest ih =>
    intro s hv h
    cases op with
    | ctor =>
      simp only [validOps] at hv
      simp only [runOps]
      apply ih
      · rw [construct_count]
        exact hv
      · exact construct_inv s h
    | dtor =>
      simp only [validOps, Bool.and_eq_true, decide_eq_true_eq] at hv
      simp only [runOps]
      apply ih
      · rw [destruct_count]
        exact hv.2
      · exact destruct_inv s h

/-- Running composed event sequences composes. -/
theorem runOps_append (a b : List FactoryOp) :
    ∀ s, runOps (a ++ b) s = runOps b (runOps a s) := by
  induction a with
  | nil => intro s; rfl
  | cons op rest ih =>
    intro s
    cases op <;> simp only [List.cons_append, runOps] <;> exact ih _

/-- N constructor events raise the live count by N. -/
theorem runOps_replicate_ctor_count :
    ∀ (n : Nat) (s : FactoryGlobals),
      (runOps (List.replicate n .ctor) s).count = s.count + n := by
  intro n
  induction n with
  | zero => intro s; simp [runOps]
  | succ m ih =>
    intro s
    rw [List.replicate_succ]
    simp only [runOps]
    rw [ih, construct_count]
    omega

/-- N destructor events lower the live count by N. -/
theorem runOps_replicate_dtor_count :
    ∀ (n : Nat) (s : FactoryGlobals),
      (runOps (List.replicate n .dtor) s).count = s.count - n := by
  intro n
  induction n with
  | zero => intro s; simp [runOps]
  | succ m ih =>
    intro s
    rw [List.replicate_succ]
    simp only [runOps]
    rw [ih, destruct_count]
    omega

/-- Prepending N constructor events to a sequence shifts the validity
counter by N. -/
theorem validOps_replicate_ctor (rest : List FactoryOp) :
    ∀ (n live : Nat),
      validOps live (List.replicate n .ctor ++ rest) = validOps (live + n) rest := by
  intro n
  induction n with
  | zero => intro live; simp
  | succ m ih =>
    intro live
    rw [List.replicate_succ, List.cons_append]
    simp only [validOps]
    rw [ih]
    congr 1
    omega

/-- N destructor events are valid whenever at least N factories are
live. -/
theorem validOps_replicate_dtor :
    ∀ (n live : Nat), n ≤ live → validOps live (List.replicate n .dtor) = true := by
  intro n
  induction n with
  | zero => intro live _; rfl
  | succ m ih =>
    intro live h
    rw [List.replicate_succ]
    simp only [validOps, Bool.and_eq_true, decide_eq_true_eq]
    exact ⟨by omega, ih (live - 1) (by omega)⟩

end TSSLSocketFactory

/-- C8: for every valid sequence of factory constructions and
destructions from the pristine state, the engine-initialized flag is
true iff the reference count is positive; given that invariant,
library initialization runs in a construction exactly on the 0-to-1
transition and only when the flag is still false (never twice),
library teardown runs in a destruction exactly on the 1-to-0
transition and leaves no live reference behind; and N constructions
followed by N destructions end with zero references and the engine
uninitialized. -/
theorem factory_refcount_engine_lifecycle :
    (∀ ops : List TSSLSocketFactory.FactoryOp,
        TSSLSocketFactory.validOps 0 ops = true →
        ((TSSLSocketFactory.runOps ops ⟨0, false⟩).initialized = true ↔
          0 < (TSSLSocketFactory.runOps ops ⟨0, false⟩).count)) ∧
    (∀ s : FactoryGlobals,
        (s.initialized = true ↔ 0 < s.count) →
        (((TSSLSocketFactory.construct s).2 = true ↔ s.count = 0) ∧
         ((TSSLSocketFactory.construct s).2 = true → s.initialized = false) ∧
         ((TSSLSocketFactory.destruct s).2 = true ↔ s.count = 1) ∧
         ((TSSLSocketFactory.destruct s).2 = true →
            (TSSLSocketFactory.destruct s).1.count = 0))) ∧
    (∀ n : Nat,
        (TSSLSocketFactory.runOps
          (List.replicate n .ctor ++ List.replicate n .dtor) ⟨0, false⟩).count = 0 ∧
        (TSSLSocketFactory.runOps
          (List.replicate n .ctor ++ List.replicate n .dtor)
          ⟨0, false⟩).initialized = false) := by
  refine ⟨fun ops hv => TSSLSocketFactory.runOps_inv ops ⟨0, false⟩ hv (by simp),
          fun s h => ⟨?_, ?_, ?_, ?_⟩, fun n => ?_⟩
  · constructor
    · intro h2
      by_contra h0
      simp [TSSLSocketFactory.construct, h0] at h2
    · intro h0
      have h1 : s.initialized = false := by
        cases hi : s.initialized
        · rfl
        · exact absurd (h.mp hi) (by omega)
      simp [TSSLSocketFactory.construct, TSSLSocketFactory.initializeOpenSSL, h0, h1]
  · intro h2
    by_cases h0 : s.count = 0
    · cases h1 : s.initialized
      · rfl
      · simp [TSSLSocketFactory.construct, TSSLSocketFactory.initializeOpenSSL,
              h0, h1] at h2
    · simp [TSSLSocketFactory.construct, h0] at h2
  · constructor
    · intro h2
      by_cases h0 : s.count - 1 = 0
      · by_cases h1 : s.initialized
        · have := h.mp (by simpa using h1)
          omega
        · simp [TSSLSocketFactory.destruct, TSSLSocketFactory.cleanupOpenSSL,
                h0, h1] at h2
      · simp [TSSLSocketFactory.destruct, h0] at h2
    · intro h1
      have hi : s.initialized = true := h.mpr (by omega)
      simp [TSSLSocketFactory.destruct, TSSLSocketFactory.cleanupOpenSSL, h1, hi]
  · intro h2
    by_cases h0 : s.count - 1 = 0
    · by_cases h1 : s.initialized <;>
        simp [TSSLSocketFactory.destruct, TSSLSocketFactory.cleanupOpenSSL, h0, h1]
    · simp [TSSLSocketFactory.destruct, h0] at h2
  · have hval : TSSLSocketFactory.validOps 0
        (List.replicate n .ctor ++ List.replicate n .dtor) = true := by
      rw [TSSLSocketFactory.validOps_replicate_ctor]
      exact TSSLSocketFactory.validOps_replicate_dtor n (0 + n) (by omega)
    have hcount : (TSSLSocketFactory.runOps
        (List.replicate n .ctor ++ List.replicate n .dtor) ⟨0, false⟩).count = 0 := by
      rw [TSSLSocketFactory.runOps_append,
          TSSLSocketFactory.runOps_replicate_dtor_count,
          TSSLSocketFactory.runOps_replicate_ctor_count]
      show 0 + n - n = 0
      omega
    have hinv := TSSLSocketFactory.runOps_inv _ ⟨0, false⟩ hval (by simp)
    refine ⟨hcount, ?_⟩
    rw [hcount] at hinv
    simpa using hinv

/-- Witness for the factory lifecycle at a concrete nested
construct/construct/destruct/destruct sequence. -/
theorem factory_refcount_engine_lifecycle_witness :
    ((TSSLSocketFactory.runOps [.ctor, .ctor, .dtor, .dtor] ⟨0, false⟩).initialized = true ↔
      0 < (TSSLSocketFactory.runOps [.ctor, .ctor, .dtor, .dtor] ⟨0, false⟩).count) ∧
    ((TSSLSocketFactory.construct ⟨0, false⟩).2 = true ↔ (0 : Nat) = 0) :=
  ⟨factory_refcount_engine_lifecycle.1 [.ctor, .ctor, .dtor, .dtor] rfl,
   (factory_refcount_engine_lifecycle.2.1 ⟨0, false⟩ (by simp)).1⟩

/-- C4 (code bug at line 329): in the common-name step, a server-role
socket with no hostname resolved during the alternate-name step
consults `getHost()` — the configured target hostname — instead of the
peer hostname: against a manager that allows exactly the peer hostname
`"peer.example.com"`, authorization of a server-role socket with no
alternate names and one common name is denied by the source's
resolution, while the role-correct resolution modelled from the spec
allows it. -/
theorem authorize_common_name_uses_local_host :
    TSSLSocket.authorize peerHostOnlyManager .unspec true
        "peer.example.com".toList "svc.example.com".toList []
        ["peer.example.com".toList] =
      .error "authorize: cannot authorize peer" ∧
    TSSLSocket.commonNameLoop peerHostOnlyManager true
        "peer.example.com".toList "svc.example.com".toList
        ["peer.example.com".toList] [] = .SKIP ∧
    commonNameLoopRoleCorrect peerHostOnlyManager true
        "peer.example.com".toList "svc.example.com".toList
        ["peer.example.com".toList] [] = .ALLOW :=
  ⟨rfl, rfl, rfl⟩

namespace TSSLSocket

/-- The trace variant of the alternate-name loop computes the plain
loop's decision and host, and its trace is the decision list cut at
the first non-`SKIP`. -/
theorem altNameLoopT_eq (access : AccessManager) (sa : SockAddr) (server : Bool)
    (peerHost localHost : List Char) :
    ∀ (alts : List GeneralName) (host : List Char),
      altNameLoopT access sa server peerHost localHost alts host =
        ((altNameLoop access sa server peerHost localHost alts host).1,
         (altNameLoop access sa server peerHost localHost alts host).2,
         takeToFirstNonSkip
           (altNameDecisions access sa server peerHost localHost alts host)) := by
  intro alts
  induction alts with
  | nil => intro host; rfl
  | cons an rest ih =>
    intro host
    cases an with
    | dns data =>
      simp only [altNameLoopT, altNameLoop, altNameDecisions, takeToFirstNonSkip]
      by_cases hd : access.verifyHost (resolveAltHost server peerHost localHost host) data
          = Decision.SKIP
      · simp [hd, ih]
      · simp [hd]
    | ipadd data =>
      simp only [altNameLoopT, altNameLoop, altNameDecisions, takeToFirstNonSkip]
      by_cases hd : access.verifyPattern sa data = Decision.SKIP
      · simp [hd, ih]
      · simp [hd]
    | other =>
      simp only [altNameLoopT, altNameLoop, altNameDecisions]
      exact ih host

/-- The alternate-name loop's decision is the first non-`SKIP` entry
of its decision list (or `SKIP` when all entries skip). -/
theorem altNameLoop_fst (access : AccessManager) (sa : SockAddr) (server : Bool)
    (peerHost localHost : List Char) :
    ∀ (alts : List GeneralName) (host : List Char),
      (altNameLoop access sa server peerHost localHost alts host).1 =
        (firstNonSkip
          (altNameDecisions access sa server peerHost localHost alts host)).getD
          .SKIP := by
  intro alts
  induction alts with
  | nil => intro host; rfl
  | cons an rest ih =>
    intro host
    cases an with
    | dns data =>
      simp only [altNameLoop, altNameDecisions, firstNonSkip]
      by_cases hd : access.verifyHost (resolveAltHost server peerHost localHost host) data
          = Decision.SKIP
      · simp [hd, ih]
      · simp [hd]
    | ipadd data =>
      simp only [altNameLoop, altNameDecisions, firstNonSkip]
      by_cases hd : access.verifyPattern sa data = Decision.SKIP
      · simp [hd, ih]
      · simp [hd]
    | other =>
      simp only [altNameLoop, altNameDecisions]
      exact ih host

/-- When every alternate-name decision skips, the loop's final host is
the host state after the full scan. -/
theorem altNameLoop_snd_skip (access : AccessManager) (sa : SockAddr) (server : Bool)
    (peerHost localHost : List Char) :
    ∀ (alts : List GeneralName) (host : List Char),
      (altNameLoop access sa server peerHost localHost alts host).1 = .SKIP →
      (altNameLoop access sa server peerHost localHost alts host).2 =
        altNameFinalHost server peerHost localHost alts host := by
  intro alts
  induction alts with
  | nil => intro host _; rfl
  | cons an rest ih =>
    intro host hskip
    cases an with
    | dns data =>
      simp only [altNameLoop, altNameFinalHost]
      by_cases hd : access.verifyHost (resolveAltHost server peerHost localHost host) data
          = Decision.SKIP
      · simp only [altNameLoop, hd, if_pos] at hskip ⊢
        exact ih _ hskip
      · simp only [altNameLoop, hd, if_neg, not_false_iff] at hskip
    | ipadd data =>
      simp only [altNameLoop, altNameFinalHost]
      by_cases hd : access.verifyPattern sa data = Decision.SKIP
      · simp only [altNameLoop, hd, if_pos] at hskip ⊢
        exact ih _ hskip
      · simp only [altNameLoop, hd, if_neg, not_false_iff] at hskip
    | other =>
      simp only [altNameLoop, altNameFinalHost] at hskip ⊢
      exact ih _ hskip

/-- The trace variant of the common-name loop computes the plain
loop's decision, and its trace is the decision list cut at the first
non-`SKIP`. -/
theorem commonNameLoopT_eq (access : AccessManager) (server : Bool)
    (peerHost localHost : List Char) :
    ∀ (cns : List (List Char)) (host : List Char),
      commonNameLoopT access server peerHost localHost cns host =
        (commonNameLoop access server peerHost localHost cns host,
         takeToFirstNonSkip
           (commonNameDecisions access server peerHost localHost cns host)) := by
  intro cns
  induction cns with
  | nil => intro host; rfl
  | cons cn rest ih =>
    intro host
    simp only [commonNameLoopT, commonNameLoop, commonNameDecisions, takeToFirstNonSkip]
    by_cases hd : access.verifyHost (resolveCommonHost server peerHost localHost host) cn
        = Decision.SKIP
    · simp [hd, ih]
    · simp [hd]

/-- The common-name loop's decision is the first non-`SKIP` entry of
its decision list (or `SKIP` when all entries skip). -/
theorem commonNameLoop_eq_firstNonSkip (access : AccessManager) (server : Bool)
    (peerHost localHost : List Char) :
    ∀ (cns : List (List Char)) (host : List Char),
      commonNameLoop access server peerHost localHost cns host =
        (firstNonSkip
          (commonNameDecisions access server peerHost localHost cns host)).getD
          .SKIP := by
  intro cns
  induction cns with
  | nil => intro host; rfl
  | cons cn rest ih =>
    intro host
    simp only [commonNameLoop, commonNameDecisions, firstNonSkip]
    by_cases hd : access.verifyHost (resolveCommonHost server peerHost localHost host) cn
        = Decision.SKIP
    · simp [hd, ih]
    · simp [hd]

end TSSLSocket

/-- A first non-`SKIP` decision is not `SKIP`. -/
theorem firstNonSkip_ne_skip :
    ∀ (l : List Decision) (d : Decision), firstNonSkip l = some d → d ≠ .SKIP := by
  intro l
  induction l with
  | nil => intro d h; exact absurd h (by simp [firstNonSkip])
  | cons e rest ih =>
    intro d h
    by_cases he : e = Decision.SKIP
    · rw [firstNonSkip, if_pos he] at h
      exact ih d h
    · rw [firstNonSkip, if_neg he] at h
      cases h
      exact he

/-- The first non-`SKIP` of a concatenation comes from the first part
when it has one, from the second part otherwise. -/
theorem firstNonSkip_append :
    ∀ (a b : List Decision),
      firstNonSkip (a ++ b) =
        if firstNonSkip a = none then firstNonSkip b else firstNonSkip a := by
  intro a b
  induction a with
  | nil => simp [firstNonSkip]
  | cons e rest ih =>
    by_cases he : e = Decision.SKIP
    · rw [List.cons_append, firstNonSkip, if_pos he, ih, firstNonSkip, if_pos he]
    · rw [List.cons_append, firstNonSkip, if_neg he, firstNonSkip, if_neg he]
      simp

/-- A list whose decisions all skip is cut nowhere. -/
theorem takeToFirstNonSkip_all_skip :
    ∀ l : List Decision, firstNonSkip l = none → takeToFirstNonSkip l = l := by
  intro l
  induction l with
  | nil => intro _; rfl
  | cons e rest ih =>
    intro h
    by_cases he : e = Decision.SKIP
    · rw [firstNonSkip, if_pos he] at h
      rw [takeToFirstNonSkip, if_pos he, ih h]
    · rw [firstNonSkip, if_neg he] at h
      exact absurd h (by simp)

/-- Cutting a concatenation at the first non-`SKIP`. -/
theorem takeToFirstNonSkip_append :
    ∀ (a b : List Decision),
      takeToFirstNonSkip (a ++ b) =
        if firstNonSkip a = none then a ++ takeToFirstNonSkip b
        else takeToFirstNonSkip a := by
  intro a b
  induction a with
  | nil => simp [firstNonSkip]
  | cons e rest ih =>
    by_cases he : e = Decision.SKIP
    · rw [List.cons_append, takeToFirstNonSkip, if_pos he, ih,
          firstNonSkip, if_pos he, takeToFirstNonSkip, if_pos he]
      by_cases hr : firstNonSkip rest = none
      · rw [if_pos hr, if_pos hr, List.cons_append]
      · rw [if_neg hr, if_neg hr]
    · rw [List.cons_append, takeToFirstNonSkip, if_neg he,
          firstNonSkip, if_neg he, takeToFirstNonSkip, if_neg he]
      simp

/-- C1: with a peer certificate present and an access manager
configured, the identity sources are consulted in the fixed order
(bare peer address, then each alternate name in list order, then each
subject common name in certificate order): the consultation trace is
the in-order source-decision list cut at its first non-`SKIP` entry,
and the socket is accepted exactly when that first non-`SKIP` decision
is `ALLOW` — any `DENY`, or exhausting every source while still
`SKIP`, raises an authorization-denied error. -/
theorem authorize_fixed_order_first_non_skip :
    ∀ (A : AccessManager) (sa : SockAddr) (srv : Bool)
      (ph lh : List Char) (alts : List GeneralName) (cns : List (List Char)),
      TSSLSocket.authorize A sa srv ph lh alts cns =
        (TSSLSocket.authorizeT A sa srv ph lh alts cns).1 ∧
      (TSSLSocket.authorizeT A sa srv ph lh alts cns).2 =
        takeToFirstNonSkip (TSSLSocket.sourceDecisions A sa srv ph lh alts cns) ∧
      (TSSLSocket.authorize A sa srv ph lh alts cns = .ok () ↔
        firstNonSkip (TSSLSocket.sourceDecisions A sa srv ph lh alts cns) =
          some .ALLOW) := by
  intro A sa srv ph lh alts cns
  have hfst := TSSLSocket.altNameLoop_fst A sa srv ph lh alts []
  simp only [TSSLSocket.authorize, TSSLSocket.authorizeT, TSSLSocket.sourceDecisions,
    TSSLSocket.altNameLoopT_eq, TSSLSocket.commonNameLoopT_eq]
  by_cases h0 : A.verifyAddr sa = Decision.SKIP
  · rw [if_neg (not_not_intro h0), if_neg (not_not_intro h0),
        firstNonSkip, if_pos h0, firstNonSkip_append,
        takeToFirstNonSkip, if_pos h0, takeToFirstNonSkip_append]
    cases hA : firstNonSkip (TSSLSocket.altNameDecisions A sa srv ph lh alts []) with
    | none =>
      have p1skip : (TSSLSocket.altNameLoop A sa srv ph lh alts []).1 = .SKIP := by
        rw [hfst, hA]
        rfl
      have hsnd := TSSLSocket.altNameLoop_snd_skip A sa srv ph lh alts [] p1skip
      rw [if_pos rfl, if_pos rfl, if_neg (not_not_intro p1skip),
          if_neg (not_not_intro p1skip), hsnd,
          takeToFirstNonSkip_all_skip _ hA,
          TSSLSocket.commonNameLoop_eq_firstNonSkip]
      cases hC : firstNonSkip (TSSLSocket.commonNameDecisions A srv ph lh cns
          (TSSLSocket.altNameFinalHost srv ph lh alts [])) with
      | none =>
        rw [if_pos (by simp), if_pos (by simp)]
        refine ⟨rfl, rfl, ?_⟩
        simp
      | some dC =>
        by_cases hAl : dC = Decision.ALLOW
        · rw [if_neg (by simp [hAl]), if_neg (by simp [hAl])]
          refine ⟨rfl, rfl, ?_⟩
          simp [hAl]
        · rw [if_pos (by simp [hAl]), if_pos (by simp [hAl])]
          refine ⟨rfl, rfl, ?_⟩
          simp [hAl]
    | some dA =>
      have hdA : dA ≠ .SKIP := firstNonSkip_ne_skip _ dA hA
      have p1 : (TSSLSocket.altNameLoop A sa srv ph lh alts []).1 = dA := by
        rw [hfst, hA]
        rfl
      rw [p1, if_neg (show ¬(some dA = none) by simp),
          if_neg (show ¬(some dA = none) by simp),
          if_pos hdA, if_pos hdA]
      by_cases hAl : dA = Decision.ALLOW
      · rw [if_neg (not_not_intro hAl), if_neg (not_not_intro hAl)]
        refine ⟨rfl, rfl, ?_⟩
        simp [hAl]
      · rw [if_pos hAl, if_pos hAl]
        refine ⟨rfl, rfl, ?_⟩
        simp [hAl]
  · rw [if_pos h0, if_pos h0, firstNonSkip, if_neg h0,
        takeToFirstNonSkip, if_neg h0]
    by_cases hAl : A.verifyAddr sa = Decision.ALLOW
    · rw [if_neg (not_not_intro hAl), if_neg (not_not_intro hAl)]
      refine ⟨rfl, rfl, ?_⟩
      simp [hAl]
    · rw [if_pos hAl, if_pos hAl]
      refine ⟨rfl, rfl, ?_⟩
      simp [hAl]

end ThriftSSL
